import Mathlib

/-!
# Verification of the sandia multi-engine malware-analysis orchestration

Shallow embedding of the consensus reduction, the rule-based risk scoring,
the result-poller loop, the backend trigger / upload routes and the filename
sanitizer of the sandia repository, together with theorems settling the
specification claims about them.

Sources embedded here:
* `README.md` — `consensus_verdict` / `confidence_map` (majority voting) and
  the "Risk Scoring" weighted-average algorithm;
* the three-way comparison IIFE of the STATA results page (subset consensus
  over whichever of the three engines reported);
* the client-side polling effect (10 attempts, 5000 ms interval);
* `sandia-backend/routes/analysis.js` — `POST /trigger/:fileId` and
  `sanitizeFilename`;
* `sandia-backend/routes/upload.js` — `POST /file` key construction,
  `GET /status/:jobId`, `GET /files` key parsing;
* `sandia-backend/config/aws.js` — `uploadPath = 'uploads/'`.

Numeric scores are modelled as `ℚ` (JavaScript numbers used here are exact on
the small integers and halves involved); machine strings are modelled as
`List Char` where character-level reasoning is needed.
-/

namespace Sandia

/-! ## Data model (spec §3) -/

/-- The three analysis engines (spec §3, `EngineKind`). -/
inductive EngineKind where
  | RuleBased
  | Structural
  | Semantic
deriving DecidableEq, Repr

/-- Normalized output of one engine (spec §3, `Verdict`).
`riskScore` and `confidence` are rationals standing for the JS numbers. -/
structure Verdict where
  engineKind : EngineKind
  isMalicious : Bool
  riskScore : ℚ
  confidence : ℚ
deriving DecidableEq, Repr

/-- Final two-valued consensus verdict. -/
inductive FinalVerdict where
  | Malicious
  | Benign
deriving DecidableEq, Repr

/-- Agreement-level confidence label (spec §3, `ConsensusResult.confidenceLabel`). -/
inductive ConfidenceLabel where
  | Unanimous
  | Majority
  | Minority
  | NoData
deriving DecidableEq, Repr

/-- The final reduction (spec §3, `ConsensusResult`). -/
structure ConsensusResult where
  finalVerdict : FinalVerdict
  agreementCount : Nat
  totalReporting : Nat
  confidenceLabel : ConfidenceLabel
  combinedRiskScore : ℚ
deriving DecidableEq, Repr

/-! ## Consensus engine

The majority rule appears twice in the source: `consensus_verdict` in the
README (always exactly three votes, `malicious_count >= total_analyses / 2`)
and the three-way comparison IIFE on the results page
(`maliciousCount / totalAnalyses >= 0.5` over whichever engines reported,
the rule-based engine always included).  Both are embedded below, and the
generic `Reduce` over an arbitrary 0–3 subset uses the very same rational
comparison. -/

/-- Number of reporting verdicts that voted malicious. -/
def agreementCount (vs : List Verdict) : Nat :=
  (vs.filter (·.isMalicious)).length

/-- Modelled from the spec: the generic Consensus Engine
`Reduce(verdicts) -> ConsensusResult` of §4.3.  The source contains only two
specializations of it (the README's `consensus_verdict`, fixed at three
votes, and the results-page IIFE over subsets that contain the rule-based
verdict); the generic reduction over an arbitrary subset, the empty-input
branch and `combinedRiskScore` are absent from the source and are modelled
here from the spec's words.  The majority comparison is written with the same
rational division `count / total >= 1/2` the source IIFE uses. -/
def Reduce (vs : List Verdict) : ConsensusResult :=
  let t := vs.length
  let a := agreementCount vs
  if t = 0 then
    { finalVerdict := .Benign
      agreementCount := 0
      totalReporting := 0
      confidenceLabel := .NoData
      combinedRiskScore := 0 }
  else
    { finalVerdict := if (1 : ℚ) / 2 ≤ (a : ℚ) / (t : ℚ) then .Malicious else .Benign
      agreementCount := a
      totalReporting := t
      confidenceLabel :=
        if a = 0 ∨ a = t then .Unanimous
        else if (1 : ℚ) / 2 ≤ (a : ℚ) / (t : ℚ) then .Majority
        else .Minority
      combinedRiskScore := (vs.map (·.riskScore)).sum / (t : ℚ) }

/-- README `confidence_map`: confidence string keyed on the malicious count
(total fixed at three analyses). -/
def confidence_map (maliciousCount : Nat) : String :=
  match maliciousCount with
  | 3 => "High confidence (unanimous)"
  | 2 => "Medium confidence (majority)"
  | 1 => "Low confidence (minority)"
  | _ => "High confidence benign (unanimous)"

/-- README `consensus_verdict(stata, gnn, bert)`: majority voting over the
three engines' malicious flags; returns the final-verdict string, the
agreement level and the confidence string. -/
def consensus_verdict (stataMal gnnMal bertMal : Bool) : String × Nat × String :=
  let maliciousCount : Nat :=
    (if stataMal then 1 else 0) + (if gnnMal then 1 else 0) + (if bertMal then 1 else 0)
  let totalAnalyses : Nat := 3
  let is_malicious := ((totalAnalyses : ℚ) / 2 ≤ (maliciousCount : ℚ))
  (if is_malicious then "MALICIOUS" else "BENIGN", maliciousCount,
    confidence_map maliciousCount)

/-- The results-page three-way comparison IIFE: the GNN and BERT flags are
present only when those analyses reported (`mlAnalysis?.is_malicious || false`),
the STATA verdict is always counted (`[mlAnalysis, bertAnalysis, true]`), and
`consensus = maliciousCount / totalAnalyses >= 0.5`. -/
def threeWayConsensus (stataMal : Bool) (gnn bert : Option Bool) : Bool :=
  let gnnMalicious := gnn.getD false
  let bertMalicious := bert.getD false
  let maliciousCount := ([gnnMalicious, bertMalicious, stataMal].filter id).length
  let totalAnalyses := ([gnn.isSome, bert.isSome, true].filter id).length
  decide ((1 : ℚ) / 2 ≤ (maliciousCount : ℚ) / (totalAnalyses : ℚ))

/-- Arithmetic core of the majority rule: for a positive total, the source's
rational comparison `count / total ≥ 1/2` is the integer comparison
`2 * count ≥ total`. -/
theorem half_le_div_iff (a t : Nat) (ht : 0 < t) :
    ((1 : ℚ) / 2 ≤ (a : ℚ) / (t : ℚ)) ↔ t ≤ 2 * a := by
  have ht' : (0 : ℚ) < (t : ℚ) := by exact_mod_cast ht
  rw [div_le_div_iff (by norm_num) ht']
  constructor
  · intro h
    have h' : (t : ℚ) ≤ (2 * a : ℚ) := by push_cast at h ⊢; linarith
    exact_mod_cast h'
  · intro h
    have h' : (t : ℚ) ≤ (2 * a : ℚ) := by exact_mod_cast h
    push_cast at h'
    linarith

theorem agreementCount_le (vs : List Verdict) : agreementCount vs ≤ vs.length :=
  List.length_filter_le _ vs

/-- Grounding: on exactly three reporting verdicts, the generic `Reduce`
verdict coincides with the README's `consensus_verdict`. -/
theorem reduce_agrees_consensus_verdict (v1 v2 v3 : Verdict) :
    ((Reduce [v1, v2, v3]).finalVerdict = .Malicious ↔
      (consensus_verdict v1.isMalicious v2.isMalicious v3.isMalicious).1 = "MALICIOUS") := by
  cases h1 : v1.isMalicious <;> cases h2 : v2.isMalicious <;> cases h3 : v3.isMalicious <;>
    simp only [Reduce, consensus_verdict, agreementCount, List.filter, h1, h2, h3] <;>
    norm_num <;> decide

/-- Grounding: the results-page IIFE's `consensus` flag agrees with the
generic `Reduce` verdict on the subset of engines it counts. -/
theorem reduce_agrees_threeWayConsensus (vS : Verdict) (vG vB : Option Verdict) :
    (threeWayConsensus vS.isMalicious (vG.map (·.isMalicious)) (vB.map (·.isMalicious)) = true ↔
      (Reduce (vG.toList ++ vB.toList ++ [vS])).finalVerdict = .Malicious) := by
  rcases vG with _ | a <;> rcases vB with _ | b
  · cases hS : vS.isMalicious <;>
      norm_num [threeWayConsensus, Reduce, agreementCount, hS] <;> decide
  · cases hS : vS.isMalicious <;> cases hB : b.isMalicious <;>
      norm_num [threeWayConsensus, Reduce, agreementCount, hS, hB] <;> decide
  · cases hS : vS.isMalicious <;> cases hG : a.isMalicious <;>
      norm_num [threeWayConsensus, Reduce, agreementCount, hS, hG] <;> decide
  · cases hS : vS.isMalicious <;> cases hG : a.isMalicious <;> cases hB : b.isMalicious <;>
      norm_num [threeWayConsensus, Reduce, agreementCount, hS, hG, hB] <;> decide

/-- C1: over any non-empty collection of at most three reporting verdicts,
the consensus reduction returns `Malicious` exactly when at least half of the
reporting verdicts voted malicious (`agreementCount * 2 ≥ totalReporting`);
in particular a 50/50 tie and a single malicious reporter yield `Malicious`. -/
theorem consensus_majority_rule (vs : List Verdict)
    (hne : vs ≠ []) (hle : vs.length ≤ 3) :
    (Reduce vs).finalVerdict = .Malicious ↔
      (Reduce vs).agreementCount * 2 ≥ (Reduce vs).totalReporting := by
  have ht : vs.length ≠ 0 := by
    simpa [List.length_eq_zero] using hne
  have htpos : 0 < vs.length := Nat.pos_of_ne_zero ht
  have key := half_le_div_iff (agreementCount vs) vs.length htpos
  simp only [Reduce, if_neg ht, ge_iff_le, Nat.mul_comm]
  rw [← key]
  by_cases hc : (1 : ℚ) / 2 ≤ ((agreementCount vs : ℚ)) / ((vs.length : ℚ))
  · simp [hc]
  · simp [hc]

/-- Witness for C1: a 50/50 tie (one malicious, one benign reporter) is
reduced to `Malicious`. -/
theorem consensus_majority_rule_witness :
    (Reduce [⟨.RuleBased, true, 80, 9/10⟩, ⟨.Structural, false, 10, 8/10⟩]).finalVerdict =
      .Malicious :=
  (consensus_majority_rule
      [⟨.RuleBased, true, 80, 9/10⟩, ⟨.Structural, false, 10, 8/10⟩]
      (by simp) (by simp)).mpr (by norm_num [Reduce, agreementCount])

/-- C2: with zero reporting engines the reduction fails open: `Benign`,
`NoData`, combined risk score 0. -/
theorem consensus_empty_fail_open :
    (Reduce []).finalVerdict = .Benign ∧
      (Reduce []).confidenceLabel = .NoData ∧
      (Reduce []).combinedRiskScore = 0 := by
  refine ⟨rfl, rfl, ?_⟩
  simp [Reduce]

/-- C3: over any non-empty collection of at most three reporting verdicts the
confidence label is `Unanimous` exactly when zero or all reporting verdicts
voted malicious, `Majority` when strictly more than half (but not all) did,
`Majority` also on an exact non-unanimous tie (the `≥` tie-break), and
`Minority` when strictly less than half (but not zero) did. -/
theorem consensus_confidence_label (vs : List Verdict)
    (hne : vs ≠ []) (hle : vs.length ≤ 3) :
    (((Reduce vs).confidenceLabel = .Unanimous ↔
        ((Reduce vs).agreementCount = 0 ∨
          (Reduce vs).agreementCount = (Reduce vs).totalReporting)) ∧
      ((Reduce vs).agreementCount * 2 > (Reduce vs).totalReporting ∧
          (Reduce vs).agreementCount < (Reduce vs).totalReporting →
        (Reduce vs).confidenceLabel = .Majority) ∧
      ((Reduce vs).agreementCount * 2 = (Reduce vs).totalReporting ∧
          (Reduce vs).agreementCount < (Reduce vs).totalReporting →
        (Reduce vs).confidenceLabel = .Majority) ∧
      ((Reduce vs).agreementCount * 2 < (Reduce vs).totalReporting ∧
          0 < (Reduce vs).agreementCount →
        (Reduce vs).confidenceLabel = .Minority)) := by
  have ht : vs.length ≠ 0 := by
    simpa [List.length_eq_zero] using hne
  have htpos : 0 < vs.length := Nat.pos_of_ne_zero ht
  have key := half_le_div_iff (agreementCount vs) vs.length htpos
  simp only [Reduce, if_neg ht]
  refine ⟨?_, ?_, ?_, ?_⟩
  · by_cases hu : agreementCount vs = 0 ∨ agreementCount vs = vs.length
    · simp [hu]
    · by_cases hc : (1 : ℚ) / 2 ≤ ((agreementCount vs : ℚ)) / ((vs.length : ℚ)) <;>
        rw [one_div] at hc <;> simp [hu, hc]
  · rintro ⟨hgt, hlt⟩
    have hu : ¬(agreementCount vs = 0 ∨ agreementCount vs = vs.length) := by
      rintro (h | h) <;> omega
    have hc : (1 : ℚ) / 2 ≤ ((agreementCount vs : ℚ)) / ((vs.length : ℚ)) :=
      key.mpr (by omega)
    rw [one_div] at hc
    simp [hu, hc]
  · rintro ⟨heq, hlt⟩
    have hu : ¬(agreementCount vs = 0 ∨ agreementCount vs = vs.length) := by
      rintro (h | h) <;> omega
    have hc : (1 : ℚ) / 2 ≤ ((agreementCount vs : ℚ)) / ((vs.length : ℚ)) :=
      key.mpr (by omega)
    rw [one_div] at hc
    simp [hu, hc]
  · rintro ⟨hlt2, hpos⟩
    have hu : ¬(agreementCount vs = 0 ∨ agreementCount vs = vs.length) := by
      rintro (h | h) <;> omega
    have hc : ¬((1 : ℚ) / 2 ≤ ((agreementCount vs : ℚ)) / ((vs.length : ℚ))) := by
      rw [key]; omega
    rw [one_div] at hc
    simp [hu, hc]

/-- The spec's worked scenario: three engines report `{malicious, malicious,
benign}` with risk scores `{80, 70, 10}`. -/
def vStata : Verdict := ⟨.RuleBased, true, 80, 9/10⟩

def vGnn : Verdict := ⟨.Structural, true, 70, 8/10⟩

def vBert : Verdict := ⟨.Semantic, false, 10, 7/10⟩

/-- Witness for C3: in the `{malicious, malicious, benign}` scenario
(2 of 3 agree, strictly more than half but not all) the label is `Majority`. -/
theorem consensus_confidence_label_witness :
    (Reduce [vStata, vGnn, vBert]).confidenceLabel = .Majority :=
  (consensus_confidence_label [vStata, vGnn, vBert] (by simp) (by simp)).2.1
    (by norm_num [Reduce, agreementCount, vStata, vGnn, vBert])

/-- C4: `combinedRiskScore` is the arithmetic mean of exactly the reporting
verdicts' risk scores: it equals `sum / count` over the reporting list,
inserting a non-reporting (absent) engine anywhere leaves it unchanged, and
the `{80, 70, 10}` scenario yields `160 / 3` (≈ 53.33). -/
theorem combined_risk_score_mean :
    ((∀ vs : List Verdict, vs ≠ [] →
        (Reduce vs).combinedRiskScore = ((vs.map (·.riskScore)).sum) / ((vs.length : ℚ))) ∧
      (∀ l₁ l₂ : List (Option Verdict),
        (Reduce ((l₁ ++ none :: l₂).filterMap id)).combinedRiskScore =
          (Reduce ((l₁ ++ l₂).filterMap id)).combinedRiskScore) ∧
      (Reduce [vStata, vGnn, vBert]).combinedRiskScore = 160 / 3) := by
  refine ⟨?_, ?_, ?_⟩
  · intro vs hvs
    have ht : vs.length ≠ 0 := by
      simpa [List.length_eq_zero] using hvs
    simp only [Reduce, if_neg ht]
  · intro l₁ l₂
    have h : (l₁ ++ none :: l₂).filterMap id = (l₁ ++ l₂).filterMap id := by
      simp [List.filterMap_append]
    rw [h]
  · norm_num [Reduce, agreementCount, vStata, vGnn, vBert]

/-- Witness for C4: the mean identity evaluated on the concrete three-verdict
scenario. -/
theorem combined_risk_score_mean_witness :
    (Reduce [vStata, vGnn, vBert]).combinedRiskScore =
      (([vStata, vGnn, vBert].map (·.riskScore)).sum) /
        (([vStata, vGnn, vBert].length : ℚ)) :=
  combined_risk_score_mean.1 [vStata, vGnn, vBert] (by simp)

/-! ## Rule-based engine risk scoring

README "Risk Scoring": weighted average, 60% threat-pattern score and 40%
behavioral score; categories `Malicious` at ≥ 60, `Suspicious` at ≥ 35,
`Safe` below 35.  The scorer itself (the STATA Lambda) is not part of the
repository snapshot; only the README algorithm and the matching UI colour
thresholds (`risk_score_percentage >= 60` / `>= 35` on the results page)
fix these numbers. -/

/-- Risk category of a single rule-based verdict. -/
inductive RiskCategory where
  | Safe
  | Suspicious
  | Malicious
deriving DecidableEq, Repr

/-- Modelled from the spec: the rule-based engine's combined risk score —
`0.6 * threatPatternScore + 0.4 * behavioralScore` (README "Risk Scoring";
the scorer's code is absent from the snapshot). -/
def ruleBasedCombinedScore (threatPatternScore behavioralScore : ℚ) : ℚ :=
  (6 / 10) * threatPatternScore + (4 / 10) * behavioralScore

/-- Modelled from the spec: category thresholds of the rule-based engine —
`≥ 60 → Malicious`, `≥ 35 → Suspicious`, otherwise `Safe` (README "Risk
Scoring", mirrored by the `>= 60` / `>= 35` colour thresholds on the results
page). -/
def riskCategory (score : ℚ) : RiskCategory :=
  if 60 ≤ score then .Malicious
  else if 35 ≤ score then .Suspicious
  else .Safe

/-- C5: the rule-based normalization combines its two sub-scores with weights
0.6 and 0.4 and thresholds the result at 60 and 35; sub-scores 90 and 20
combine to 62, which is categorized `Malicious`. -/
theorem rule_based_risk_scoring :
    ((∀ s : ℚ, 60 ≤ s → riskCategory s = .Malicious) ∧
      (∀ s : ℚ, 35 ≤ s → s < 60 → riskCategory s = .Suspicious) ∧
      (∀ s : ℚ, s < 35 → riskCategory s = .Safe) ∧
      ruleBasedCombinedScore 90 20 = 62 ∧
      riskCategory (ruleBasedCombinedScore 90 20) = .Malicious) := by
  refine ⟨?_, ?_, ?_, ?_, ?_⟩
  · intro s hs
    simp [riskCategory, hs]
  · intro s h35 h60
    have h : ¬(60 : ℚ) ≤ s := by linarith
    simp [riskCategory, h, h35]
  · intro s h35
    have h60 : ¬(60 : ℚ) ≤ s := by linarith
    have h35' : ¬(35 : ℚ) ≤ s := by linarith
    simp [riskCategory, h60, h35']
  · norm_num [ruleBasedCombinedScore]
  · norm_num [ruleBasedCombinedScore, riskCategory]

/-- Witness for C5: the three threshold bands evaluated at 62, 40 and 10. -/
theorem rule_based_risk_scoring_witness :
    riskCategory 62 = .Malicious ∧
      riskCategory 40 = .Suspicious ∧
      riskCategory 10 = .Safe :=
  ⟨rule_based_risk_scoring.1 62 (by norm_num),
    rule_based_risk_scoring.2.1 40 (by norm_num) (by norm_num),
    rule_based_risk_scoring.2.2.1 10 (by norm_num)⟩

/-! ## Result poller

Spec §4.2 specifies the bounded-retry state machine
`NotTriggered → Triggered → Polling → {Completed | Failed | TimedOut}`.
The source implements the loop client-side: a React effect that re-polls
while `pollingAttempts < 10` with a `setTimeout(..., 5000)` between reads.
The server-side state machine is modelled from the spec with exactly those
constants. -/

/-- Lifecycle states of an `AnalysisJob` (spec §3). -/
inductive JobState where
  | NotTriggered
  | Triggered
  | Polling
  | Completed
  | Failed
  | TimedOut
deriving DecidableEq, Repr

/-- Outcome of one non-blocking read of the engine's result store. -/
inductive ReadOutcome where
  | absent
  | ready (v : Verdict)
  | malformed
deriving DecidableEq, Repr

/-- Poller configuration: maximum attempt count and fixed wait interval. -/
structure PollerConfig where
  maxAttempts : Nat
  intervalMs : Nat
deriving DecidableEq, Repr

/-- The source's polling constants: `pollingAttempts < 10` and
`setTimeout(..., 5000)`. -/
def sandiaPollerConfig : PollerConfig := { maxAttempts := 10, intervalMs := 5000 }

/-- One poller job: current state plus the number of reads performed. -/
structure PollJob where
  state : JobState
  attemptCount : Nat
deriving DecidableEq, Repr

/-- Modelled from the spec: one step of the Result Poller state machine of
§4.2 (absent from src; the source's equivalent is the client-side polling
effect).  In `Polling`, one read is issued: a well-formed result completes
the job, a malformed one fails it, an absent one increments `attemptCount`
and times the job out once the attempt budget is spent.  Terminal states are
fixed points. -/
def pollStep (cfg : PollerConfig) (read : Nat → ReadOutcome) (j : PollJob) : PollJob :=
  match j.state with
  | .Polling =>
    match read j.attemptCount with
    | .ready _ => { state := .Completed, attemptCount := j.attemptCount + 1 }
    | .malformed => { state := .Failed, attemptCount := j.attemptCount + 1 }
    | .absent =>
      if cfg.maxAttempts ≤ j.attemptCount + 1 then
        { state := .TimedOut, attemptCount := j.attemptCount + 1 }
      else
        { state := .Polling, attemptCount := j.attemptCount + 1 }
  | _ => j

/-- A freshly entered polling job: no reads performed yet. -/
def freshPollJob : PollJob := { state := .Polling, attemptCount := 0 }

theorem pollStep_terminal (cfg : PollerConfig) (read : Nat → ReadOutcome)
    (j : PollJob) (h : j.state ≠ .Polling) : pollStep cfg read j = j := by
  unfold pollStep
  cases hs : j.state <;> simp_all

/-- Under a store that never yields a result, `k ≤ 10` steps of the sandia
poller leave the job polling with `k` attempts (for `k < 10`) and time it
out at exactly `k = 10`. -/
theorem pollStep_absent_iterate (read : Nat → ReadOutcome)
    (hread : ∀ k, read k = .absent) :
    ∀ k : Nat, k ≤ 10 →
      (pollStep sandiaPollerConfig read)^[k] freshPollJob =
        if k = 10 then { state := .TimedOut, attemptCount := 10 }
        else { state := .Polling, attemptCount := k } := by
  intro k
  induction k with
  | zero => intro _; simp [freshPollJob]
  | succ n ih =>
    intro hle
    have hn : n ≤ 10 := Nat.le_of_succ_le hle
    have hn' : n ≠ 10 := by omega
    rw [Function.iterate_succ_apply', ih hn, if_neg hn']
    by_cases h10 : n + 1 = 10
    · simp only [pollStep, hread, sandiaPollerConfig, if_pos h10]
      simp [h10]
    · have hlt : ¬(10 ≤ n + 1) := by omega
      simp only [pollStep, hread, sandiaPollerConfig]
      simp [hlt, h10]

/-- C6: for a job in `Polling` whose result never becomes available, the
poller performs at most 10 read attempts at a fixed 5000 ms interval; after
the 10th unsuccessful attempt the job is `TimedOut` and every further step
changes nothing, so polling terminates. -/
theorem poller_bounded_termination (read : Nat → ReadOutcome)
    (hread : ∀ k, read k = .absent) :
    (((pollStep sandiaPollerConfig read)^[10] freshPollJob).state = .TimedOut ∧
      (∀ n : Nat, ((pollStep sandiaPollerConfig read)^[n] freshPollJob).attemptCount ≤ 10) ∧
      (∀ n : Nat, 10 ≤ n →
        (pollStep sandiaPollerConfig read)^[n] freshPollJob =
          (pollStep sandiaPollerConfig read)^[10] freshPollJob) ∧
      sandiaPollerConfig.intervalMs = 5000 ∧
      sandiaPollerConfig.maxAttempts = 10) := by
  have hat10 : (pollStep sandiaPollerConfig read)^[10] freshPollJob =
      { state := .TimedOut, attemptCount := 10 } := by
    rw [pollStep_absent_iterate read hread 10 (by omega)]
    simp
  have hstick : ∀ m : Nat, (pollStep sandiaPollerConfig read)^[10 + m] freshPollJob =
      { state := .TimedOut, attemptCount := 10 } := by
    intro m
    induction m with
    | zero => simpa using hat10
    | succ p ih =>
      have : 10 + (p + 1) = (10 + p) + 1 := by omega
      rw [this, Function.iterate_succ_apply', ih]
      exact pollStep_terminal _ _ _ (by simp)
  refine ⟨by rw [hat10], ?_, ?_, rfl, rfl⟩
  · intro n
    by_cases hn : n ≤ 10
    · rw [pollStep_absent_iterate read hread n hn]
      split <;> simp <;> omega
    · have hrep : n = 10 + (n - 10) := by omega
      rw [hrep, hstick]
  · intro n hn
    have hrep : n = 10 + (n - 10) := by omega
    rw [hrep, hstick, hat10]

/-- Witness for C6: the always-absent result store drives the fresh job to
`TimedOut`. -/
theorem poller_bounded_termination_witness :
    ((pollStep sandiaPollerConfig (fun _ => ReadOutcome.absent))^[10] freshPollJob).state =
      .TimedOut :=
  (poller_bounded_termination (fun _ => ReadOutcome.absent) (fun _ => rfl)).1

/-! ## Backend trigger endpoint (`POST /api/analysis/trigger/:fileId`)

`routes/analysis.js`: the handler validates `fileId`, `s3Key` and `s3Bucket`
(JS falsy check — the empty string fails it), then unconditionally invokes
the analysis Lambda with a fresh payload and answers 202.  It keeps no
record of in-flight jobs and performs no check against an existing poller
for the same artifact; likewise the client effect (`initAnalysis`) triggers
on every mount.  Each accepted request therefore starts a fresh engine
invocation. -/

/-- A trigger request: the `:fileId` path parameter plus the JSON body
fields read by the handler. -/
structure TriggerRequest where
  fileId : String
  s3Key : String
  s3Bucket : String
  fileName : Option String
deriving DecidableEq, Repr

/-- The payload fields the handler passes to the Lambda invocation
(`fileName || s3Key` mirrors the JS default). -/
structure LambdaInvocation where
  fileId : String
  s3Bucket : String
  s3Key : String
  fileName : String
deriving DecidableEq, Repr

/-- The handler's parameter validation:
`if (!fileId || !s3Key || !s3Bucket) return 400` (empty strings are falsy). -/
def validTrigger (r : TriggerRequest) : Bool :=
  !(r.fileId == "" || r.s3Key == "" || r.s3Bucket == "")

/-- The Lambda payload built by the handler. -/
def mkInvocation (r : TriggerRequest) : LambdaInvocation :=
  { fileId := r.fileId
    s3Bucket := r.s3Bucket
    s3Key := r.s3Key
    fileName := r.fileName.getD r.s3Key }

/-- `POST /trigger/:fileId`: returns the HTTP status and the invocation list
after the request.  A valid request always appends a fresh invocation —
there is no lookup of an existing job for the same `(artifactID, engineKind)`
pair. -/
def triggerHandler (invocations : List LambdaInvocation) (r : TriggerRequest) :
    Nat × List LambdaInvocation :=
  if validTrigger r then (202, invocations ++ [mkInvocation r])
  else (400, invocations)

/-- A sequence of trigger requests processed by the stateless handler. -/
def runTriggers (invocations : List LambdaInvocation) :
    List TriggerRequest → List LambdaInvocation
  | [] => invocations
  | r :: rs => runTriggers (triggerHandler invocations r).2 rs

/-- A concrete re-trigger of the same artifact while its first job is still
being polled. -/
def sampleTrigger : TriggerRequest :=
  { fileId := "file-1"
    s3Key := "uploads/file-1/sample.sh"
    s3Bucket := "sandia-uploads"
    fileName := some "sample.sh" }

/-- Counterexample to C7: issuing the same `(artifactID, engineKind)` trigger
twice (the second while the first is still in flight) produces two engine
invocations for that artifact, not one — the handler does not attach to the
existing job. -/
theorem trigger_no_idempotency_counterexample :
    ((runTriggers [] [sampleTrigger, sampleTrigger]).filter
        (·.fileId == "file-1")).length = 2 := by
  decide

/-- C7 (amended): the trigger endpoint has no idempotency guard — every
request passing parameter validation appends a fresh Lambda invocation to
whatever is already in flight, so `k` valid triggers of the same pair yield
`k` invocations (attempt counts are duplicated, not shared). -/
theorem trigger_appends_invocation (invocations : List LambdaInvocation)
    (r : TriggerRequest) (h : validTrigger r = true) :
    triggerHandler invocations r = (202, invocations ++ [mkInvocation r]) := by
  simp [triggerHandler, h]

/-- Witness for the amended C7: a valid request against an in-flight
invocation list of one yields two invocations. -/
theorem trigger_appends_invocation_witness :
    triggerHandler [mkInvocation sampleTrigger] sampleTrigger =
      (202, [mkInvocation sampleTrigger, mkInvocation sampleTrigger]) :=
  trigger_appends_invocation [mkInvocation sampleTrigger] sampleTrigger (by decide)

/-! ## Upload status endpoint (`GET /api/upload/status/:jobId`)

`routes/upload.js`: the status handler answers
`200 {success: true, data: {jobId, status: 'uploaded', message: ...}}`
for every `jobId`, with an explicit comment that a database lookup is where
one *would* check the job — no storage is consulted. -/

/-- The JSON shape of the upload-status response. -/
structure UploadStatusResponse where
  httpStatus : Nat
  success : Bool
  jobId : String
  status : String
  message : String
deriving DecidableEq, Repr

/-- `GET /status/:jobId`.  `store` is the set of job ids that actually exist
in storage; the handler receives it (the S3 client is in scope in the route
file) but never reads it. -/
def uploadStatusHandler (store : List String) (jobId : String) : UploadStatusResponse :=
  { httpStatus := 200
    success := true
    jobId := jobId
    status := "uploaded"
    message := "File upload completed successfully" }

/-- C8: for every `jobId` the upload status endpoint answers 200/success
with status `'uploaded'` and the echoed id, and the response is identical
for any two storage states — in particular whether or not the job exists. -/
theorem upload_status_constant (store store' : List String) (jobId : String) :
    (uploadStatusHandler store jobId = uploadStatusHandler store' jobId ∧
      (uploadStatusHandler store jobId).httpStatus = 200 ∧
      (uploadStatusHandler store jobId).success = true ∧
      (uploadStatusHandler store jobId).status = "uploaded" ∧
      (uploadStatusHandler store jobId).jobId = jobId) :=
  ⟨rfl, rfl, rfl, rfl, rfl⟩

/-! ## Filename sanitizer (`utils/fileValidation.js`)

```js
filename.replace(/[^a-zA-Z0-9.-]/g, '_').replace(/_{2,}/g, '_').toLowerCase()
```

Characters are modelled through their Unicode code points (`Char.toNat`);
the regex character class, the run-collapsing pass and the ASCII lowering
are each embedded separately and composed in source order. -/

/-- `a`–`z` (code points 97–122). -/
def isLowerAlpha (c : Char) : Bool := 97 ≤ c.toNat && c.toNat ≤ 122

/-- `A`–`Z` (code points 65–90). -/
def isUpperAlpha (c : Char) : Bool := 65 ≤ c.toNat && c.toNat ≤ 90

/-- `0`–`9` (code points 48–57). -/
def isDigitChar (c : Char) : Bool := 48 ≤ c.toNat && c.toNat ≤ 57

/-- The regex class `[a-zA-Z0-9.-]` of the first `replace`. -/
def keepChar (c : Char) : Bool :=
  isLowerAlpha c || isUpperAlpha c || isDigitChar c || c == '.' || c == '-'

/-- `replace(/[^a-zA-Z0-9.-]/g, '_')`, one character at a time. -/
def replaceDisallowed (c : Char) : Char := if keepChar c then c else '_'

/-- `replace(/_{2,}/g, '_')`: collapse every maximal run of two or more
underscores to a single underscore. -/
def collapseUnderscores : List Char → List Char
  | [] => []
  | a :: rest =>
    if a == '_' && rest.head? == some '_' then collapseUnderscores rest
    else a :: collapseUnderscores rest

/-- `toLowerCase()` on the ASCII range the sanitizer can produce. -/
def toLowerChar (c : Char) : Char :=
  if isUpperAlpha c then Char.ofNat (c.toNat + 32) else c

/-- `sanitizeFilename` on character lists: class replacement, underscore
collapsing, then lowering — in the source's composition order. -/
def sanitizeChars (l : List Char) : List Char :=
  (collapseUnderscores (l.map replaceDisallowed)).map toLowerChar

/-- `sanitizeFilename` of `utils/fileValidation.js`. -/
def sanitizeFilename (s : String) : String := ⟨sanitizeChars s.data⟩

/-- The character set sanitizer output lives in: lowercase letters, digits,
dot, hyphen, underscore. -/
def sanitizedChar (c : Char) : Bool :=
  isLowerAlpha c || isDigitChar c || c == '.' || c == '-' || c == '_'

theorem toLowerChar_of_upper {c : Char} (h : isUpperAlpha c = true) :
    isLowerAlpha (toLowerChar c) = true := by
  have hc : c = Char.ofNat c.toNat := (Char.ofNat_toNat c).symm
  simp only [isUpperAlpha, Bool.and_eq_true, decide_eq_true_eq] at h
  obtain ⟨h1, h2⟩ := h
  set n := c.toNat with hn
  interval_cases n <;> rw [hc] <;> decide

theorem toLowerChar_eq_underscore {c : Char} (h : toLowerChar c = '_') : c = '_' := by
  by_cases hu : isUpperAlpha c = true
  · exfalso
    have := toLowerChar_of_upper hu
    rw [h] at this
    simp [isLowerAlpha] at this
  · simpa [toLowerChar, hu] using h

theorem toLowerChar_fixed {c : Char} (h : isUpperAlpha c = false) : toLowerChar c = c := by
  simp [toLowerChar, h]

theorem sanitizedChar_not_upper {c : Char} (h : sanitizedChar c = true) :
    isUpperAlpha c = false := by
  rw [Bool.eq_false_iff]
  intro hu
  simp only [isUpperAlpha, Bool.and_eq_true, decide_eq_true_eq] at hu
  obtain ⟨u1, u2⟩ := hu
  simp only [sanitizedChar, isLowerAlpha, isDigitChar, Bool.or_eq_true, Bool.and_eq_true,
    decide_eq_true_eq, beq_iff_eq] at h
  rcases h with (((⟨h1, h2⟩ | ⟨h1, h2⟩) | rfl) | rfl) | rfl
  · omega
  · omega
  · exact absurd u1 (by decide)
  · exact absurd u1 (by decide)
  · exact absurd u2 (by decide)

theorem replaceDisallowed_sanitized_of_keep {c : Char} :
    sanitizedChar (toLowerChar (replaceDisallowed c)) = true := by
  by_cases hk : keepChar c = true
  · simp only [replaceDisallowed, if_pos hk]
    simp only [keepChar, Bool.or_eq_true] at hk
    rcases hk with (((h | h) | h) | h) | h
    · rw [toLowerChar_fixed]
      · simp [sanitizedChar, h]
      · simp only [isLowerAlpha, Bool.and_eq_true, decide_eq_true_eq] at h
        simp only [isUpperAlpha, Bool.and_eq_true, decide_eq_true_eq]
        simp
        omega
    · have := toLowerChar_of_upper h
      simp [sanitizedChar, this]
    · rw [toLowerChar_fixed]
      · simp [sanitizedChar, h]
      · simp only [isDigitChar, Bool.and_eq_true, decide_eq_true_eq] at h
        simp only [isUpperAlpha, Bool.and_eq_true, decide_eq_true_eq]
        simp
        omega
    · rw [beq_iff_eq] at h
      subst h
      rw [toLowerChar_fixed] <;> decide
    · rw [beq_iff_eq] at h
      subst h
      rw [toLowerChar_fixed] <;> decide
  · simp only [replaceDisallowed, if_neg hk]
    rw [toLowerChar_fixed] <;> decide

theorem replaceDisallowed_fixed_of_sanitized {c : Char} (h : sanitizedChar c = true) :
    replaceDisallowed c = c := by
  simp only [sanitizedChar, Bool.or_eq_true, beq_iff_eq] at h
  rcases h with (((h | h) | h) | rfl) | rfl
  · simp [replaceDisallowed, keepChar, h]
  · simp [replaceDisallowed, keepChar, h]
  · simp [replaceDisallowed, keepChar, h]
  · decide
  · decide

/-- No two adjacent underscores. -/
def NoAdj (l : List Char) : Prop := l.Chain' (fun a b => ¬(a = '_' ∧ b = '_'))

theorem collapseUnderscores_head? (l : List Char) :
    (collapseUnderscores l).head? = l.head? := by
  induction l with
  | nil => rfl
  | cons a rest ih =>
    simp only [collapseUnderscores]
    split
    · rename_i h
      simp only [Bool.and_eq_true, beq_iff_eq] at h
      rw [ih, h.2, List.head?_cons, h.1]
    · simp

theorem collapseUnderscores_noAdj (l : List Char) : NoAdj (collapseUnderscores l) := by
  induction l with
  | nil => exact List.chain'_nil
  | cons a rest ih =>
    simp only [collapseUnderscores]
    split
    · exact ih
    · rename_i h
      rw [NoAdj, List.chain'_cons']
      refine ⟨?_, ih⟩
      intro b hb
      rw [collapseUnderscores_head?] at hb
      rintro ⟨rfl, rfl⟩
      simp only [beq_self_eq_true, Bool.true_and, beq_iff_eq] at h
      exact h (Option.mem_def.mp hb)

theorem collapseUnderscores_of_noAdj {l : List Char} (h : NoAdj l) :
    collapseUnderscores l = l := by
  induction l with
  | nil => rfl
  | cons a rest ih =>
    rw [NoAdj, List.chain'_cons'] at h
    obtain ⟨h1, h2⟩ := h
    have hcond : (a == '_' && rest.head? == some '_') = false := by
      rcases hh : rest.head? with _ | b
      · cases ha : (a == '_') <;> rfl
      · rcases eq_or_ne a '_' with rfl | ha
        · have hb : b ≠ '_' := fun hbe => (h1 b hh) ⟨rfl, hbe⟩
          simp [hb]
        · simp [ha]
    have hunfold : collapseUnderscores (a :: rest) =
        if a == '_' && rest.head? == some '_' then collapseUnderscores rest
        else a :: collapseUnderscores rest := rfl
    rw [hunfold, hcond]
    simp only [Bool.false_eq_true, if_false]
    rw [ih h2]

theorem noAdj_map_toLower {l : List Char} (h : NoAdj l) : NoAdj (l.map toLowerChar) := by
  rw [NoAdj, List.chain'_map]
  refine List.Chain'.imp ?_ h
  intro a b hab
  rintro ⟨ha, hb⟩
  exact hab ⟨toLowerChar_eq_underscore ha, toLowerChar_eq_underscore hb⟩

theorem mem_collapseUnderscores {c : Char} {l : List Char}
    (h : c ∈ collapseUnderscores l) : c ∈ l := by
  induction l with
  | nil => simpa [collapseUnderscores] using h
  | cons a rest ih =>
    simp only [collapseUnderscores] at h
    split at h
    · exact List.mem_cons_of_mem a (ih h)
    · rcases List.mem_cons.mp h with rfl | hmem
      · exact List.mem_cons_self _ _
      · exact List.mem_cons_of_mem a (ih hmem)

theorem sanitizeChars_sanitized {c : Char} {l : List Char}
    (h : c ∈ sanitizeChars l) : sanitizedChar c = true := by
  simp only [sanitizeChars, List.mem_map] at h
  obtain ⟨d, hd, rfl⟩ := h
  have hd' := mem_collapseUnderscores hd
  simp only [List.mem_map] at hd'
  obtain ⟨e, _, rfl⟩ := hd'
  exact replaceDisallowed_sanitized_of_keep

theorem map_id_of_fixed {f : Char → Char} {l : List Char}
    (h : ∀ c ∈ l, f c = c) : l.map f = l := by
  induction l with
  | nil => rfl
  | cons a rest ih =>
    simp only [List.map_cons, h a (List.mem_cons_self a rest)]
    rw [ih fun c hc => h c (List.mem_cons_of_mem a hc)]

theorem sanitizeChars_idem (l : List Char) :
    sanitizeChars (sanitizeChars l) = sanitizeChars l := by
  have hall : ∀ c ∈ sanitizeChars l, sanitizedChar c = true :=
    fun c hc => sanitizeChars_sanitized hc
  have h1 : (sanitizeChars l).map replaceDisallowed = sanitizeChars l :=
    map_id_of_fixed fun c hc => replaceDisallowed_fixed_of_sanitized (hall c hc)
  have hnoadj : NoAdj (sanitizeChars l) :=
    noAdj_map_toLower (collapseUnderscores_noAdj _)
  have h2 : collapseUnderscores (sanitizeChars l) = sanitizeChars l :=
    collapseUnderscores_of_noAdj hnoadj
  have h3 : (sanitizeChars l).map toLowerChar = sanitizeChars l :=
    map_id_of_fixed fun c hc =>
      toLowerChar_fixed (sanitizedChar_not_upper (hall c hc))
  calc sanitizeChars (sanitizeChars l)
      = ((collapseUnderscores ((sanitizeChars l).map replaceDisallowed)).map toLowerChar) := rfl
    _ = sanitizeChars l := by rw [h1, h2, h3]

/-- C10: `sanitizeFilename` is idempotent — its output consists only of
lowercase letters, digits, dots, hyphens and non-repeated underscores, all
of which a second pass maps to themselves. -/
theorem sanitizeFilename_idempotent (s : String) :
    (sanitizeFilename (sanitizeFilename s) = sanitizeFilename s ∧
      ∀ c ∈ (sanitizeFilename s).data, sanitizedChar c = true) :=
  ⟨congrArg String.mk (sanitizeChars_idem s.data),
    fun _ hc => sanitizeChars_sanitized hc⟩

/-- Witness for C10: idempotence and the output character set evaluated on a
concrete messy filename. -/
theorem sanitizeFilename_idempotent_witness :
    (sanitizeFilename (sanitizeFilename "My  Report (v2)!!.SH") =
        sanitizeFilename "My  Report (v2)!!.SH" ∧
      sanitizedChar 'm' = true) :=
  ⟨(sanitizeFilename_idempotent "My  Report (v2)!!.SH").1,
    (sanitizeFilename_idempotent "My  Report (v2)!!.SH").2 'm' (by decide)⟩

/-! ## Upload key construction and parsing

`routes/upload.js` builds the stored key as
`` `${S3_CONFIG.uploadPath}${jobId}/${uniqueFilename}` `` with
`uploadPath = 'uploads/'` (`config/aws.js`), where
`uniqueFilename = generateUniqueFilename(sanitizeFilename(originalname))`
and `jobId = uuidv4()`.  The file-listing endpoint recovers the id with
`obj.Key.split('/')` and `pathParts[1]`.  `split` is embedded as
`splitOnChar` on character lists, including JS's leading/empty-segment
behaviour. -/

/-- JS `String.prototype.split(sep)` on character lists (single-character
separator): `"".split` is `[""]`, separators at the ends produce empty
segments. -/
def splitOnChar (sep : Char) : List Char → List (List Char)
  | [] => [[]]
  | c :: rest =>
    let ps := splitOnChar sep rest
    if c = sep then [] :: ps
    else (c :: ps.headD []) :: ps.tail

/-- JS `Array.prototype.join(sep)` for a single-character separator. -/
def joinWithChar (sep : Char) : List (List Char) → List Char
  | [] => []
  | [p] => p
  | p :: q :: ps => p ++ sep :: joinWithChar sep (q :: ps)

/-- `generateUniqueFilename` of `utils/fileValidation.js`:
`` `${timestamp}-${randomString}-${baseName}.${extension}` `` where
`extension = name.split('.').pop()` and
`baseName = name.split('.').slice(0, -1).join('.')`.  The timestamp
(`Date.now()`) and random string are passed in as parameters. -/
def generateUniqueFilename (timestamp randomString name : List Char) : List Char :=
  let parts := splitOnChar '.' name
  let extension := parts.getLastD []
  let baseName := joinWithChar '.' parts.dropLast
  timestamp ++ '-' :: randomString ++ '-' :: baseName ++ '.' :: extension

/-- `S3_CONFIG.uploadPath = 'uploads/'` (`config/aws.js`). -/
def s3UploadPath : List Char := "uploads/".data

/-- The stored object key built by `POST /file`:
`uploadPath + jobId + '/' + uniqueFilename`. -/
def s3KeyFor (jobId uniqueFilename : List Char) : List Char :=
  s3UploadPath ++ jobId ++ '/' :: uniqueFilename

/-- The id recovered by `GET /files`: `obj.Key.split('/')[1]`. -/
def extractFileId (key : List Char) : Option (List Char) :=
  (splitOnChar '/' key)[1]?

theorem splitOnChar_ne_nil (sep : Char) (l : List Char) : splitOnChar sep l ≠ [] := by
  cases l with
  | nil => simp [splitOnChar]
  | cons c rest =>
    simp only [splitOnChar]
    split <;> simp

theorem splitOnChar_of_not_mem {sep : Char} {l : List Char} (h : sep ∉ l) :
    splitOnChar sep l = [l] := by
  induction l with
  | nil => rfl
  | cons c rest ih =>
    have hc : ¬(c = sep) := fun hc => h (hc ▸ List.mem_cons_self c rest)
    have hrest : sep ∉ rest := fun hm => h (List.mem_cons_of_mem c hm)
    simp only [splitOnChar, if_neg hc, ih hrest]
    rfl

theorem splitOnChar_append_sep {sep : Char} {l₁ : List Char} (l₂ : List Char)
    (h : sep ∉ l₁) :
    splitOnChar sep (l₁ ++ sep :: l₂) = l₁ :: splitOnChar sep l₂ := by
  induction l₁ with
  | nil => simp [splitOnChar]
  | cons c rest ih =>
    have hc : ¬(c = sep) := fun hc => h (hc ▸ List.mem_cons_self c rest)
    have hrest : sep ∉ rest := fun hm => h (List.mem_cons_of_mem c hm)
    simp only [List.cons_append, splitOnChar, List.append_eq, if_neg hc, ih hrest]
    rfl

theorem mem_splitOnChar {sep c : Char} {l : List Char} :
    ∀ {p : List Char}, p ∈ splitOnChar sep l → c ∈ p → c ∈ l := by
  induction l with
  | nil =>
    intro p hp hc
    simp only [splitOnChar, List.mem_singleton] at hp
    subst hp
    exact absurd hc (List.not_mem_nil c)
  | cons a rest ih =>
    intro p hp hc
    simp only [splitOnChar] at hp
    by_cases ha : a = sep
    · rw [if_pos ha] at hp
      rcases List.mem_cons.mp hp with rfl | hmem
      · exact absurd hc (List.not_mem_nil c)
      · exact List.mem_cons_of_mem a (ih hmem hc)
    · rw [if_neg ha] at hp
      rcases hps : splitOnChar sep rest with _ | ⟨s, ss⟩
      · exact absurd hps (splitOnChar_ne_nil sep rest)
      · rw [hps] at hp
        simp only [List.headD_cons, List.tail_cons] at hp
        rcases List.mem_cons.mp hp with rfl | hmem
        · rcases List.mem_cons.mp hc with rfl | hcs
          · exact List.mem_cons_self c rest
          · refine List.mem_cons_of_mem a (ih ?_ hcs)
            rw [hps]
            exact List.mem_cons_self s ss
        · refine List.mem_cons_of_mem a (ih ?_ hc)
          rw [hps]
          exact List.mem_cons_of_mem s hmem

theorem mem_joinWithChar {sep c : Char} {ps : List (List Char)}
    (h : c ∈ joinWithChar sep ps) : c = sep ∨ ∃ p ∈ ps, c ∈ p := by
  induction ps with
  | nil => exact absurd h (List.not_mem_nil c)
  | cons p qs ih =>
    cases qs with
    | nil =>
      right
      exact ⟨p, List.mem_cons_self p [], h⟩
    | cons q rs =>
      simp only [joinWithChar] at h
      rcases List.mem_append.mp h with hmem | hmem
      · right
        exact ⟨p, List.mem_cons_self p _, hmem⟩
      · rcases List.mem_cons.mp hmem with rfl | hmem'
        · left; rfl
        · rcases ih hmem' with hl | ⟨r, hr, hcr⟩
          · left; exact hl
          · right
            exact ⟨r, List.mem_cons_of_mem p hr, hcr⟩

theorem getLastD_mem {α : Type} (l : List α) (d : α) (h : l ≠ []) : l.getLastD d ∈ l := by
  rw [List.getLastD_eq_getLast?]
  rw [List.getLast?_eq_getLast l h]
  simp only [Option.getD_some]
  exact List.getLast_mem h

theorem slash_not_mem_generateUniqueFilename {ts rand name : List Char}
    (hts : '/' ∉ ts) (hrand : '/' ∉ rand) (hname : '/' ∉ name) :
    '/' ∉ generateUniqueFilename ts rand name := by
  intro hmem
  simp only [generateUniqueFilename, List.mem_append, List.mem_cons, or_assoc] at hmem
  rcases hmem with h | h | h | h | h | h | h
  · exact hts h
  · exact absurd h (by decide)
  · exact hrand h
  · exact absurd h (by decide)
  · rcases mem_joinWithChar h with h' | ⟨p, hp, hcp⟩
    · exact absurd h' (by decide)
    · exact hname (mem_splitOnChar (List.dropLast_subset _ hp) hcp)
  · exact absurd h (by decide)
  · have hne := splitOnChar_ne_nil '.' name
    exact hname (mem_splitOnChar (getLastD_mem _ [] hne) h)

theorem splitOnChar_s3KeyFor {jobId f : List Char} (hj : '/' ∉ jobId) (hf : '/' ∉ f) :
    splitOnChar '/' (s3KeyFor jobId f) = ["uploads".data, jobId, f] := by
  have hup : s3UploadPath = "uploads".data ++ ['/'] := by decide
  have hassoc : s3KeyFor jobId f = "uploads".data ++ '/' :: (jobId ++ '/' :: f) := by
    rw [s3KeyFor, hup, List.append_assoc]
    rfl
  rw [hassoc, splitOnChar_append_sep _ (by decide), splitOnChar_append_sep _ hj,
    splitOnChar_of_not_mem hf]

theorem slash_not_mem_sanitized {s : String} : '/' ∉ (sanitizeFilename s).data := by
  intro hmem
  have := sanitizeChars_sanitized (l := s.data) hmem
  exact absurd this (by decide)

/-- C9: upload-key round trip — the key stored by the upload endpoint is
`'uploads/' + jobId + '/' + uniqueFilename` (with the filename sanitized,
then made unique), and the listing endpoint's second `'/'`-separated segment
of that key recovers exactly the upload-time `jobId` (given that the
generated uuid, timestamp and random string are slash-free, which the
generators guarantee). -/
theorem upload_key_roundtrip (jobId ts rand : List Char) (original : String)
    (hj : '/' ∉ jobId) (hts : '/' ∉ ts) (hrand : '/' ∉ rand) :
    extractFileId
        (s3KeyFor jobId (generateUniqueFilename ts rand (sanitizeFilename original).data)) =
      some jobId := by
  have hslash :=
    slash_not_mem_generateUniqueFilename hts hrand
      (slash_not_mem_sanitized (s := original))
  rw [extractFileId, splitOnChar_s3KeyFor hj hslash]
  rfl

/-- Witness for C9: the round trip evaluated for a concrete uuid-shaped job
id, timestamp, random string and original filename. -/
theorem upload_key_roundtrip_witness :
    extractFileId
        (s3KeyFor "f47ac10b-58cc-4372".data
          (generateUniqueFilename "1733659200000".data "k3j9q2".data
            (sanitizeFilename "My Script!.sh").data)) =
      some "f47ac10b-58cc-4372".data :=
  upload_key_roundtrip "f47ac10b-58cc-4372".data "1733659200000".data "k3j9q2".data
    "My Script!.sh" (by decide) (by decide) (by decide)

end Sandia
